import Mathlib

/-!
Shallow embedding of the formula-engine subsystem of the repository
(`src/frequenz/sdk/timeseries/logical_meter/_formula_engine.py`): the
shunting-yard compiler `FormulaBuilder` and the streaming postfix evaluator
`FormulaEngine`.

Conventions of the embedding:
* timestamps are naturals, metric values are rationals (`Option ℚ`, `none`
  being an absent value / sensor gap);
* a metric stream is embedded as the finite list of samples it will deliver;
  `fetch_next` pops the head, and a closed stream is an exhausted list;
* Python exceptions raised inside one tick are the `TickError` values below,
  one constructor per `raise`/failure site of the source;
* Python `dict`s are association lists in insertion order (inserting an
  existing key updates the value in place, which is what makes the
  timestamp-keyed dict of `_synchronize_metric_timestamps` collapse
  duplicate timestamps);
* iteration over the `asyncio` task sets of `_apply` is modelled as
  iteration over the fetcher map in insertion order, and
  `next(iter(ready_metrics))` as taking the first element.

The classes of `_formula_steps.py` (`MetricFetcher` and the `FormulaStep`
variants) are not among the given sources; their definitions below are
modelled from the spec and carry a doc comment saying so.
-/

/-- A timestamped sample; the value is optional (a sensor gap).  This embeds
the `Sample` type the engine streams operate on. -/
structure Sample where
  timestamp : Nat
  value : Option ℚ
deriving DecidableEq

/-- Modelled from the spec: `MetricFetcher` (defined in `_formula_steps.py`,
which is not among the sources) wraps one subscribed metric stream, pulls the
next sample on demand and applies the none-to-zero substitution policy.
`data_stream` is the embedded stream (the samples it will still deliver) and
`latest_value` the sample obtained by the most recent `fetch_next` call. -/
structure MetricFetcher where
  name : String
  data_stream : List Sample
  nones_are_zeros : Bool
  latest_value : Option Sample
deriving DecidableEq

/-- Modelled from the spec: the `FormulaStep` variants of `_formula_steps.py`
(operand fetch, binary arithmetic, averaging, parenthesis marker), embedded as
a closed tagged-variant type. -/
inductive FormulaStep where
  | fetcher (f : MetricFetcher)
  | adder
  | subtractor
  | multiplier
  | divider
  | averager (fetchers : List MetricFetcher)
  | openParen
deriving DecidableEq

/-- Modelled from the spec: the `repr` of each step, as used by the builder's
string-keyed precedence lookups (each operator prints as its token and
`OpenParen` prints as `(`). -/
def stepRepr : FormulaStep → String
  | FormulaStep.fetcher f => f.name
  | FormulaStep.adder => "+"
  | FormulaStep.subtractor => "-"
  | FormulaStep.multiplier => "*"
  | FormulaStep.divider => "/"
  | FormulaStep.averager _ => "avg"
  | FormulaStep.openParen => "("

/-- The module-level `_operator_precedence` table of `_formula_engine.py`. -/
def _operator_precedence : List (String × Nat) :=
  [("(", 0), ("/", 1), ("*", 2), ("-", 3), ("+", 4), (")", 5)]

/-- `_operator_precedence[key]`, with `none` for a `KeyError`. -/
def precLookup (key : String) : Option Nat :=
  (_operator_precedence.find? (fun p => p.1 == key)).map Prod.snd

/-- The precedence of a step already on the working stack
(`_operator_precedence[repr(prev_step)]`); only ever meaningful for the
operator steps, which are the only steps the builder pushes there. -/
def stepPrec (s : FormulaStep) : Nat := (precLookup (stepRepr s)).getD 0

/-- The `FormulaBuilder` state: the shunting-yard working stack (head is the
top), the output postfix list, and the fetcher map keyed by metric name. -/
structure FormulaBuilder where
  name : String
  build_stack : List FormulaStep
  steps : List FormulaStep
  metric_fetchers : List (String × MetricFetcher)
deriving DecidableEq

/-- `FormulaBuilder.__init__`. -/
def mkBuilder (name : String) : FormulaBuilder := ⟨name, [], [], []⟩

/-- The `while self._build_stack:` pop loop of `push_oper`, returning the new
working stack and output list, or `none` for a `KeyError` on the precedence
lookup of a stack entry. -/
def popLoop (oper : String) (op_prec : Nat) :
    List FormulaStep → List FormulaStep → Option (List FormulaStep × List FormulaStep)
  | [], steps => some ([], steps)
  | prev :: rest, steps =>
    match precLookup (stepRepr prev) with
    | none => none
    | some pprec =>
      if op_prec < pprec then some (prev :: rest, steps)
      else if oper = ")" ∧ stepRepr prev = "(" then some (rest, steps)
      else if stepRepr prev = "(" then some (prev :: rest, steps)
      else popLoop oper op_prec rest (steps ++ [prev])

/-- The step `push_oper` pushes onto the working stack for each operator
token (the trailing `if`/`elif` chain of `push_oper`; `)` pushes nothing). -/
def pushedOf (oper : String) : List FormulaStep :=
  if oper = "+" then [FormulaStep.adder]
  else if oper = "-" then [FormulaStep.subtractor]
  else if oper = "*" then [FormulaStep.multiplier]
  else if oper = "/" then [FormulaStep.divider]
  else if oper = "(" then [FormulaStep.openParen]
  else []

/-- `FormulaBuilder.push_oper`; `none` models a `KeyError` on a precedence
lookup (never reached for the documented operator tokens). -/
def FormulaBuilder.push_oper (b : FormulaBuilder) (oper : String) :
    Option FormulaBuilder :=
  match
    (if b.build_stack ≠ [] ∧ oper ≠ "(" then
       match precLookup oper with
       | none => none
       | some op_prec => popLoop oper op_prec b.build_stack b.steps
     else some (b.build_stack, b.steps)) with
  | none => none
  | some (bs, st) => some { b with build_stack := pushedOf oper ++ bs, steps := st }

/-- First-match lookup in an association list (Python `dict` access). -/
def lookupFetcher : List (String × MetricFetcher) → String → Option MetricFetcher
  | [], _ => none
  | (k, v) :: rest, n => if k = n then some v else lookupFetcher rest n

/-- Python `dict.setdefault`: keep the existing entry if the key is present,
otherwise append the new one; returns the entry that ends up in the map. -/
def setdefault (m : List (String × MetricFetcher)) (k : String) (v : MetricFetcher) :
    MetricFetcher × List (String × MetricFetcher) :=
  match lookupFetcher m k with
  | some f => (f, m)
  | none => (v, m ++ [(k, v)])

/-- `FormulaBuilder.push_metric`. -/
def FormulaBuilder.push_metric (b : FormulaBuilder) (name : String)
    (data_stream : List Sample) (nones_are_zeros : Bool) : FormulaBuilder :=
  let r := setdefault b.metric_fetchers name ⟨name, data_stream, nones_are_zeros, none⟩
  { b with steps := b.steps ++ [FormulaStep.fetcher r.1], metric_fetchers := r.2 }

/-- `FormulaBuilder.push_average`: register every listed metric through
`setdefault` and emit a single `Averager` holding the resulting fetchers. -/
def FormulaBuilder.push_average (b : FormulaBuilder)
    (metrics : List (String × List Sample × Bool)) : FormulaBuilder :=
  let r := metrics.foldl
    (fun acc metric =>
      let r2 := setdefault acc.2 metric.1 ⟨metric.1, metric.2.1, metric.2.2, none⟩
      (acc.1 ++ [r2.1], r2.2))
    (([] : List MetricFetcher), b.metric_fetchers)
  { b with steps := b.steps ++ [FormulaStep.averager r.1], metric_fetchers := r.2 }

/-- The `FormulaEngine` state: the compiled program, its fetcher map, and the
`_first_run` flag (true at construction). -/
structure FormulaEngine where
  name : String
  steps : List FormulaStep
  metric_fetchers : List (String × MetricFetcher)
  first_run : Bool
deriving DecidableEq

/-- `FormulaBuilder.build`: flush the remaining working stack (top first) onto
the output list and construct the engine with `_first_run = True`. -/
def FormulaBuilder.build (b : FormulaBuilder) : FormulaEngine :=
  ⟨b.name, b.steps ++ b.build_stack, b.metric_fetchers, true⟩

/-- One constructor per failure site of a tick, mirroring the exceptions the
source can raise inside `_apply` (all of them caught by `_run`'s loop). -/
inductive TickError where
  | noResult (formula : String)
  | streamClosedFor (component : String)
  | syncFailed (formula : String)
  | applyFailed (formula : String)
  | assertFailed
  | emptyWait
  | stepCrash
  | keyError
  | maxOfEmpty
deriving DecidableEq

/-- The names a tick error's message interpolates (the formula name or the
component/metric name, depending on the raise site). -/
def TickError.names : TickError → List String
  | TickError.noResult f => [f]
  | TickError.streamClosedFor c => [c]
  | TickError.syncFailed f => [f]
  | TickError.applyFailed f => [f]
  | _ => []

/-- Modelled from the spec: `MetricFetcher.fetch_next` pulls the next sample
of the stream (`none` when the stream is closed), performed here for every
fetcher of the map in order, recording each fetched sample in the fetcher. -/
def fetchNextAll :
    List (String × MetricFetcher) →
      List (String × Option Sample) × List (String × MetricFetcher)
  | [] => ([], [])
  | (n, f) :: rest =>
    let r := fetchNextAll rest
    match f.data_stream with
    | [] => ((n, none) :: r.1, (n, f) :: r.2)
    | s :: tl =>
      ((n, some s) :: r.1,
       (n, { f with data_stream := tl, latest_value := some s }) :: r.2)

/-- Insertion into the Python dict `metrics_by_ts` (keyed by timestamp): an
existing key keeps its position but its value is overwritten. -/
def dictInsert (d : List (Nat × String)) (k : Nat) (v : String) :
    List (Nat × String) :=
  if d.any (fun p => p.1 == k) then
    d.map (fun p => if p.1 == k then (k, v) else p)
  else d ++ [(k, v)]

/-- The first loop of `_synchronize_metric_timestamps`: build `metrics_by_ts`
from the fetch results, raising `Stream closed for component: name` at the
first absent result. -/
def buildTsDictGo :
    List (String × Option Sample) → List (Nat × String) →
      Except TickError (List (Nat × String))
  | [], acc => Except.ok acc
  | (n, r) :: rest, acc =>
    match r with
    | none => Except.error (TickError.streamClosedFor n)
    | some s => buildTsDictGo rest (dictInsert acc s.timestamp n)

/-- Build `metrics_by_ts` from the fetch results. -/
def buildTsDict (results : List (String × Option Sample)) :
    Except TickError (List (Nat × String)) :=
  buildTsDictGo results []

/-- The `while metric_ts < latest_ts` re-fetch loop: pop samples off the
stream until the timestamp reaches `latest`; an exhausted stream is the failed
`assert next_val is not None`. -/
def refetchGo (latest : Nat) :
    List Sample → Nat → Option Sample →
      Except TickError Nat × List Sample × Option Sample
  | [], ts, last =>
    if ts < latest then (Except.error TickError.assertFailed, [], last)
    else (Except.ok ts, [], last)
  | s :: rest, ts, last =>
    if ts < latest then refetchGo latest rest s.timestamp (some s)
    else (Except.ok ts, s :: rest, last)

/-- Re-fetch one fetcher until its timestamp reaches `latest`, returning the
final timestamp and the fetcher with its consumed stream and last sample. -/
def refetchFetcher (latest : Nat) (f : MetricFetcher) (ts : Nat) :
    Except TickError Nat × MetricFetcher :=
  let r := refetchGo latest f.data_stream ts f.latest_value
  (r.1, { f with data_stream := r.2.1, latest_value := r.2.2 })

/-- Replace the (unique) entry of a fetcher map. -/
def updateFetcher :
    List (String × MetricFetcher) → String → MetricFetcher →
      List (String × MetricFetcher)
  | [], _, _ => []
  | (k, v) :: rest, n, f =>
    if k = n then (k, f) :: rest else (k, v) :: updateFetcher rest n f

/-- The second loop of `_synchronize_metric_timestamps`: walk the items of
`metrics_by_ts`, skip the entry carrying the latest timestamp, re-fetch every
other named fetcher and raise the synchronization failure on overshoot.  The
fetcher map with all mutations performed so far is returned on both
outcomes. -/
def syncItems (fname : String) (latest : Nat) :
    List (Nat × String) → List (String × MetricFetcher) →
      Except TickError Unit × List (String × MetricFetcher)
  | [], fs => (Except.ok (), fs)
  | (ts, n) :: rest, fs =>
    if ts = latest then syncItems fname latest rest fs
    else
      match lookupFetcher fs n with
      | none => (Except.error TickError.keyError, fs)
      | some f =>
        match refetchFetcher latest f ts with
        | (Except.error e, f2) => (Except.error e, updateFetcher fs n f2)
        | (Except.ok ts2, f2) =>
          let fs2 := updateFetcher fs n f2
          if latest < ts2 then (Except.error (TickError.syncFailed fname), fs2)
          else syncItems fname latest rest fs2

/-- `FormulaEngine._synchronize_metric_timestamps`, acting on the fetch
results of the first tick: build the timestamp-keyed dict, take the maximum
timestamp, re-fetch the non-latest entries, and clear `_first_run` only after
full success. -/
def FormulaEngine._synchronize_metric_timestamps (E : FormulaEngine)
    (results : List (String × Option Sample)) :
    Except TickError Nat × FormulaEngine :=
  match buildTsDict results with
  | Except.error e => (Except.error e, E)
  | Except.ok d =>
    match (d.map Prod.fst).max? with
    | none => (Except.error TickError.maxOfEmpty, E)
    | some latest_ts =>
      match syncItems E.name latest_ts d E.metric_fetchers with
      | (Except.error e, fs2) =>
        (Except.error e, { E with metric_fetchers := fs2 })
      | (Except.ok _, fs2) =>
        (Except.ok latest_ts,
         { E with metric_fetchers := fs2, first_run := false })

/-- Modelled from the spec: the value a `MetricFetcher` step pushes — the
value of the sample obtained in the fetch/synchronization phase, with an
absent value turned into `0` when `nones_are_zeros` is set; `none` (no sample
fetched yet) models a step applied before any fetch. -/
def fetchedValue (f : MetricFetcher) : Option (Option ℚ) :=
  match f.latest_value with
  | none => none
  | some s =>
    match s.value with
    | some v => some (some v)
    | none => if f.nones_are_zeros then some (some 0) else some none

/-- The evaluation environment: each metric name's pushed value, read off the
engine's fetcher map. -/
def envOf (fs : List (String × MetricFetcher)) (n : String) : Option (Option ℚ) :=
  (lookupFetcher fs n).bind fetchedValue

/-- Absence-propagating binary arithmetic on optional values. -/
def liftOp (op : ℚ → ℚ → ℚ) : Option ℚ → Option ℚ → Option ℚ
  | some a, some b => some (op a b)
  | _, _ => none

/-- Modelled from the spec: the mean pushed by `Averager`, absent when any
input is absent. -/
def meanOpt (vs : List (Option ℚ)) : Option ℚ :=
  if vs.all Option.isSome then some ((vs.filterMap id).sum / (vs.length : ℚ))
  else none

/-- Modelled from the spec: `step.apply(eval_stack)` for each variant — a
fetcher pushes its fetched value, a binary operator pops two operands and
pushes the result, `Averager` pops as many values as it holds fetchers and
pushes their mean.  `none` models an exception while applying the step
(popping an empty stack, or executing the structural `OpenParen` marker,
which the spec gives no evaluation semantics). -/
def applyStep (env : String → Option (Option ℚ)) (stack : List (Option ℚ)) :
    FormulaStep → Option (List (Option ℚ))
  | FormulaStep.fetcher f => (env f.name).map (fun v => v :: stack)
  | FormulaStep.adder =>
    match stack with
    | b :: a :: rest => some (liftOp (· + ·) a b :: rest)
    | _ => none
  | FormulaStep.subtractor =>
    match stack with
    | b :: a :: rest => some (liftOp (· - ·) a b :: rest)
    | _ => none
  | FormulaStep.multiplier =>
    match stack with
    | b :: a :: rest => some (liftOp (· * ·) a b :: rest)
    | _ => none
  | FormulaStep.divider =>
    match stack with
    | b :: a :: rest => some (liftOp (· / ·) a b :: rest)
    | _ => none
  | FormulaStep.averager fs =>
    if fs.length = 0 ∨ stack.length < fs.length then none
    else some (meanOpt (stack.take fs.length) :: stack.drop fs.length)
  | FormulaStep.openParen => none

/-- The `for step in self._steps: step.apply(eval_stack)` loop, starting from
a given stack; `none` when some step raises. -/
def runSteps (env : String → Option (Option ℚ)) :
    List FormulaStep → List (Option ℚ) → Option (List (Option ℚ))
  | [], stack => some stack
  | s :: rest, stack =>
    match applyStep env stack s with
    | none => none
    | some stack2 => runSteps env rest stack2

/-- The tail of `_apply` after the timestamp is settled: execute the program
against a fresh empty stack; exactly one remaining value is the success
`Sample`, any other stack size is the `Formula application failed` error, and
a raising step is the propagated exception. -/
def evalPhase (E : FormulaEngine) (ts : Nat) : Except TickError Sample :=
  match runSteps (envOf E.metric_fetchers) E.steps [] with
  | none => Except.error TickError.stepCrash
  | some [v] => Except.ok ⟨ts, v⟩
  | some _ => Except.error (TickError.applyFailed E.name)

/-- `FormulaEngine._apply`: fetch once from every fetcher (an empty fetcher
set is `asyncio.wait`'s `ValueError`), fail with the `didn't arrive` error if
any result is absent, synchronize timestamps on the first run or take the
first ready fetcher's timestamp afterwards, then run the postfix program.  The
engine state (consumed streams, `_first_run`) is returned alongside. -/
def FormulaEngine._apply (E : FormulaEngine) :
    Except TickError Sample × FormulaEngine :=
  if E.metric_fetchers.isEmpty then (Except.error TickError.emptyWait, E)
  else
    let fr := fetchNextAll E.metric_fetchers
    let E1 : FormulaEngine := { E with metric_fetchers := fr.2 }
    if fr.1.any (fun r => r.2.isNone) then
      (Except.error (TickError.noResult E.name), E1)
    else
      let tsE2 :=
        if E1.first_run then FormulaEngine._synchronize_metric_timestamps E1 fr.1
        else
          match fr.1.head? with
          | some (_, some s) => (Except.ok s.timestamp, E1)
          | _ => (Except.error TickError.emptyWait, E1)
      match tsE2 with
      | (Except.error e, E2) => (Except.error e, E2)
      | (Except.ok ts, E2) => (evalPhase E2 ts, E2)

/-- A scheduling event for the `_run` loop: one tick, or the task's
cancellation. -/
inductive LoopEvent where
  | tick
  | cancel

/-- `FormulaEngine._run` over a finite schedule of events, returning the
sequence of published samples: a successful tick publishes its sample, a
failed tick is logged and skipped, and cancellation breaks the loop with
nothing further published. -/
def FormulaEngine._run : List LoopEvent → FormulaEngine → List Sample
  | [], _ => []
  | LoopEvent.cancel :: _, _ => []
  | LoopEvent.tick :: rest, E =>
    match FormulaEngine._apply E with
    | (Except.ok s, E2) => s :: FormulaEngine._run rest E2
    | (Except.error _, E2) => FormulaEngine._run rest E2

/-- A compile-time event: the push calls a client can make on a builder. -/
inductive Oper where
  | plus
  | minus
  | times
  | divide
  | lparen
  | rparen

/-- The operator token of each `Oper`. -/
def Oper.str : Oper → String
  | Oper.plus => "+"
  | Oper.minus => "-"
  | Oper.times => "*"
  | Oper.divide => "/"
  | Oper.lparen => "("
  | Oper.rparen => ")"

/-- One push call on the builder. -/
inductive Push where
  | oper (o : Oper)
  | metric (name : String) (stream : List Sample) (nz : Bool)
  | average (ms : List (String × List Sample × Bool))

/-- Perform one push call (the `push_oper` of a documented operator token
never fails, so `getD` never falls back). -/
def applyPush (b : FormulaBuilder) : Push → FormulaBuilder
  | Push.oper o => (b.push_oper o.str).getD b
  | Push.metric n s z => b.push_metric n s z
  | Push.average ms => b.push_average ms

/-- Run a whole sequence of push calls on a fresh builder. -/
def applyPushes (name : String) (ps : List Push) : FormulaBuilder :=
  ps.foldl applyPush (mkBuilder name)

/-- Net effect of one push on the number of `(` markers held by the working
stack: `(` adds one, `)` removes one when any is present (truncated
subtraction), everything else leaves it unchanged. -/
def parenStep (n : Nat) : Push → Nat
  | Push.oper Oper.lparen => n + 1
  | Push.oper Oper.rparen => n - 1
  | _ => n

/-- The number of unmatched `(` pushes left by a push sequence. -/
def parenBal (ps : List Push) : Nat := ps.foldl parenStep 0

/-- The steps `push_oper` ever places on the working stack. -/
def isOperStep : FormulaStep → Bool
  | FormulaStep.adder => true
  | FormulaStep.subtractor => true
  | FormulaStep.multiplier => true
  | FormulaStep.divider => true
  | FormulaStep.openParen => true
  | _ => false

/-- A working stack holding only operator steps. -/
def opsOnly (l : List FormulaStep) : Bool := l.all isOperStep

/-- The pop-loop guard: a stack entry is popped onto the output while its
precedence is at most the incoming one and it is not the `(` marker. -/
def popCond (p : Nat) (s : FormulaStep) : Bool :=
  decide (stepPrec s ≤ p) && !(s == FormulaStep.openParen)

/-- An engine whose fetchers A and B both return timestamp 0 on the first
fetch while C returns timestamp 1: the duplicate-timestamp first tick of the
synchronization protocol. -/
def engineAB0C1 : FormulaEngine :=
  ⟨"f", [FormulaStep.fetcher ⟨"A", [⟨0, some 10⟩, ⟨1, some 20⟩], false, none⟩],
   [("A", ⟨"A", [⟨0, some 10⟩, ⟨1, some 20⟩], false, none⟩),
    ("B", ⟨"B", [⟨0, some 5⟩, ⟨1, some 6⟩], false, none⟩),
    ("C", ⟨"C", [⟨1, some 7⟩], false, none⟩)], true⟩

/-- A synchronized single-fetcher engine past its first run, whose fetcher
holds a fetched sample of value 3 at timestamp 0. -/
def engineOne3 : FormulaEngine :=
  ⟨"f", [FormulaStep.fetcher ⟨"m", [], false, none⟩],
   [("m", ⟨"m", [], false, some ⟨0, some 3⟩⟩)], false⟩

/-- An engine with no fetchers at all. -/
def engineNoFetchers : FormulaEngine := ⟨"f", [], [], true⟩

/-- An engine named `g` whose fetcher `m1` has a closed (exhausted) stream
while `m2` still delivers. -/
def engineClosedM1 : FormulaEngine :=
  ⟨"g", [FormulaStep.fetcher ⟨"m1", [], false, none⟩],
   [("m1", ⟨"m1", [], false, none⟩), ("m2", ⟨"m2", [⟨0, some 1⟩], false, none⟩)],
   true⟩

/-- A builder whose working stack holds a single `Adder`. -/
def builderAdder : FormulaBuilder := ⟨"f", [FormulaStep.adder], [], []⟩

/-! Helper lemmas about the builder. -/

theorem precLookup_isOper (s : FormulaStep) (h : isOperStep s = true) :
    precLookup (stepRepr s) = some (stepPrec s) := by
  cases s <;> first | rfl | simp [isOperStep] at h

theorem stepPrec_le_five (s : FormulaStep) (h : isOperStep s = true) :
    stepPrec s ≤ 5 := by
  cases s <;> first | decide | simp [isOperStep] at h

theorem stepPrec_openParen : stepPrec FormulaStep.openParen = 0 := rfl

theorem stepRepr_eq_lparen (s : FormulaStep) (h : isOperStep s = true) :
    (stepRepr s = "(") ↔ s = FormulaStep.openParen := by
  cases s <;> simp_all [isOperStep, stepRepr]

theorem opsOnly_iff (l : List FormulaStep) :
    opsOnly l = true ↔ ∀ s ∈ l, isOperStep s = true := by
  simp [opsOnly, List.all_eq_true]

theorem popLoop_eq (oper : String) (p : Nat) (stack : List FormulaStep) :
    ∀ steps : List FormulaStep, opsOnly stack = true →
      popLoop oper p stack steps =
        some
          (if oper = ")" ∧
              (stack.dropWhile (popCond p)).head? = some FormulaStep.openParen
             then (stack.dropWhile (popCond p)).tail
             else stack.dropWhile (popCond p),
           steps ++ stack.takeWhile (popCond p)) := by
  induction stack with
  | nil => intro steps _; simp [popLoop]
  | cons prev rest ih =>
    intro steps h
    rw [opsOnly_iff] at h
    have hprev : isOperStep prev = true := h prev (by simp)
    have hrest : opsOnly rest = true := by
      rw [opsOnly_iff]; exact fun s hs => h s (by simp [hs])
    rw [popLoop, precLookup_isOper prev hprev]
    dsimp only
    by_cases hlt : p < stepPrec prev
    · have hcond : popCond p prev = false := by
        simp [popCond, decide_eq_false_iff_not]; omega
      have hnp : prev ≠ FormulaStep.openParen := by
        intro e; rw [e, stepPrec_openParen] at hlt; omega
      rw [if_pos hlt]
      rw [List.takeWhile_cons_of_neg (by simp [hcond]),
        List.dropWhile_cons_of_neg (by simp [hcond])]
      simp [hnp]
    · have hle : stepPrec prev ≤ p := by omega
      rw [if_neg hlt]
      by_cases hpar : prev = FormulaStep.openParen
      · subst hpar
        have hcond : popCond p FormulaStep.openParen = false := by
          simp [popCond]
        rw [List.takeWhile_cons_of_neg (by simp [hcond]),
          List.dropWhile_cons_of_neg (by simp [hcond])]
        by_cases hop : oper = ")"
        · rw [if_pos ⟨hop, rfl⟩]
          simp [hop]
        · rw [if_neg (fun hc => hop hc.1)]
          simp [hop, stepRepr]
      · have hcond : popCond p prev = true := by
          simp [popCond, hle, hpar]
        have hrepr : stepRepr prev ≠ "(" := by
          rw [Ne, stepRepr_eq_lparen prev hprev]; exact hpar
        rw [if_neg (fun hc => hrepr hc.2), if_neg hrepr]
        rw [List.takeWhile_cons_of_pos (by simp [hcond]),
          List.dropWhile_cons_of_pos (by simp [hcond])]
        rw [ih (steps ++ [prev]) hrest]
        simp

theorem push_oper_lparen (b : FormulaBuilder) :
    b.push_oper "(" =
      some { b with build_stack := FormulaStep.openParen :: b.build_stack } := by
  unfold FormulaBuilder.push_oper
  rw [if_neg (fun h => h.2 rfl)]
  rfl

theorem push_oper_eq (b : FormulaBuilder) (oper : String) (p : Nat)
    (h : opsOnly b.build_stack = true) (hp : precLookup oper = some p)
    (hne : oper ≠ "(") :
    b.push_oper oper =
      some { b with
        build_stack :=
          pushedOf oper ++
            (if oper = ")" ∧
                (b.build_stack.dropWhile (popCond p)).head? =
                  some FormulaStep.openParen
               then (b.build_stack.dropWhile (popCond p)).tail
               else b.build_stack.dropWhile (popCond p)),
        steps := b.steps ++ b.build_stack.takeWhile (popCond p) } := by
  unfold FormulaBuilder.push_oper
  by_cases hempty : b.build_stack = []
  · rw [if_neg (fun hc => hc.1 hempty)]
    simp [hempty]
  · rw [if_pos ⟨hempty, hne⟩, hp]
    dsimp only
    rw [popLoop_eq oper p b.build_stack b.steps h]

theorem opsOnly_of_sublist {l l2 : List FormulaStep} (hs : l2.Sublist l)
    (h : opsOnly l = true) : opsOnly l2 = true := by
  rw [opsOnly_iff] at h ⊢
  exact fun s hmem => h s (hs.subset hmem)

theorem opsOnly_after (b : FormulaBuilder) (h : opsOnly b.build_stack = true)
    (oper : String) (p : Nat) (hpo : opsOnly (pushedOf oper) = true) :
    opsOnly
      (pushedOf oper ++
        (if oper = ")" ∧
            (b.build_stack.dropWhile (popCond p)).head? =
              some FormulaStep.openParen
           then (b.build_stack.dropWhile (popCond p)).tail
           else b.build_stack.dropWhile (popCond p))) = true := by
  have hdrop : opsOnly (b.build_stack.dropWhile (popCond p)) = true :=
    opsOnly_of_sublist (List.dropWhile_sublist _) h
  have htail : opsOnly (b.build_stack.dropWhile (popCond p)).tail = true :=
    opsOnly_of_sublist (List.tail_sublist _) hdrop
  rw [opsOnly_iff] at hpo hdrop htail ⊢
  intro s hs
  rcases List.mem_append.mp hs with hs | hs
  · exact hpo s hs
  · split at hs
    · exact htail s hs
    · exact hdrop s hs

theorem opsOnly_push_oper_getD (b : FormulaBuilder)
    (h : opsOnly b.build_stack = true) (o : Oper) :
    opsOnly ((b.push_oper o.str).getD b).build_stack = true := by
  cases o
  case lparen =>
    rw [show Oper.lparen.str = "(" from rfl, push_oper_lparen, Option.getD_some]
    simpa [opsOnly, isOperStep] using h
  case plus =>
    rw [show Oper.plus.str = "+" from rfl,
      push_oper_eq b "+" 4 h rfl (by decide), Option.getD_some]
    exact opsOnly_after b h "+" 4 (by decide)
  case minus =>
    rw [show Oper.minus.str = "-" from rfl,
      push_oper_eq b "-" 3 h rfl (by decide), Option.getD_some]
    exact opsOnly_after b h "-" 3 (by decide)
  case times =>
    rw [show Oper.times.str = "*" from rfl,
      push_oper_eq b "*" 2 h rfl (by decide), Option.getD_some]
    exact opsOnly_after b h "*" 2 (by decide)
  case divide =>
    rw [show Oper.divide.str = "/" from rfl,
      push_oper_eq b "/" 1 h rfl (by decide), Option.getD_some]
    exact opsOnly_after b h "/" 1 (by decide)
  case rparen =>
    rw [show Oper.rparen.str = ")" from rfl,
      push_oper_eq b ")" 5 h rfl (by decide), Option.getD_some]
    exact opsOnly_after b h ")" 5 (by decide)

theorem opsOnly_applyPush (b : FormulaBuilder)
    (h : opsOnly b.build_stack = true) : ∀ pu : Push,
    opsOnly (applyPush b pu).build_stack = true
  | Push.metric n s z => by simpa [applyPush, FormulaBuilder.push_metric] using h
  | Push.average ms => by simpa [applyPush, FormulaBuilder.push_average] using h
  | Push.oper o => opsOnly_push_oper_getD b h o

theorem opsOnly_foldl (ps : List Push) :
    ∀ b : FormulaBuilder, opsOnly b.build_stack = true →
      opsOnly (ps.foldl applyPush b).build_stack = true := by
  induction ps with
  | nil => exact fun b h => h
  | cons p rest ih => exact fun b h => ih _ (opsOnly_applyPush b h p)

theorem opsOnly_applyPushes (name : String) (ps : List Push) :
    opsOnly (applyPushes name ps).build_stack = true :=
  opsOnly_foldl ps (mkBuilder name) rfl

theorem push_oper_isSome (b : FormulaBuilder)
    (h : opsOnly b.build_stack = true) (o : Oper) :
    (b.push_oper o.str).isSome = true := by
  cases o
  case lparen => rw [show Oper.lparen.str = "(" from rfl, push_oper_lparen]; rfl
  case plus =>
    rw [show Oper.plus.str = "+" from rfl,
      push_oper_eq b "+" 4 h rfl (by decide)]; rfl
  case minus =>
    rw [show Oper.minus.str = "-" from rfl,
      push_oper_eq b "-" 3 h rfl (by decide)]; rfl
  case times =>
    rw [show Oper.times.str = "*" from rfl,
      push_oper_eq b "*" 2 h rfl (by decide)]; rfl
  case divide =>
    rw [show Oper.divide.str = "/" from rfl,
      push_oper_eq b "/" 1 h rfl (by decide)]; rfl
  case rparen =>
    rw [show Oper.rparen.str = ")" from rfl,
      push_oper_eq b ")" 5 h rfl (by decide)]; rfl

theorem takeWhile_middle {α : Type} (p : α → Bool) (x : α) (rest : List α) :
    ∀ pre : List α, (∀ a ∈ pre, p a = true) → p x = false →
      (pre ++ x :: rest).takeWhile p = pre ∧
        (pre ++ x :: rest).dropWhile p = x :: rest := by
  intro pre
  induction pre with
  | nil =>
    intro _ hx
    constructor
    · simpa using @List.takeWhile_cons_of_neg _ p x rest (by simp [hx])
    · simpa using @List.dropWhile_cons_of_neg _ p x rest (by simp [hx])
  | cons a as ih =>
    intro hpre hx
    have ha : p a = true := hpre a (by simp)
    have hrec := ih (fun y hy => hpre y (by simp [hy])) hx
    constructor
    · rw [List.cons_append, List.takeWhile_cons_of_pos (by simp [ha]), hrec.1]
    · rw [List.cons_append, List.dropWhile_cons_of_pos (by simp [ha]), hrec.2]

theorem exists_first_split {α : Type} [DecidableEq α] (a : α) :
    ∀ l : List α, a ∈ l → ∃ pre rest, l = pre ++ a :: rest ∧ a ∉ pre := by
  intro l
  induction l with
  | nil => intro h; simp at h
  | cons x xs ih =>
    intro h
    by_cases hx : x = a
    · exact ⟨[], xs, by simp [hx], by simp⟩
    · have hmem : a ∈ xs := by
        rcases List.mem_cons.mp h with h1 | h1
        · exact absurd h1.symm hx
        · exact h1
      obtain ⟨pre, rest, heq, hout⟩ := ih hmem
      exact ⟨x :: pre, rest, by simp [heq], by
        simp [List.mem_cons, hout]
        exact fun e => hx e.symm⟩

theorem openParen_not_mem_takeWhile (p : Nat) (l : List FormulaStep) :
    FormulaStep.openParen ∉ l.takeWhile (popCond p) := by
  intro hmem
  have := List.mem_takeWhile_imp hmem
  simp [popCond] at this

theorem count_drop_eq (p : Nat) (l : List FormulaStep) :
    (l.dropWhile (popCond p)).count FormulaStep.openParen =
      l.count FormulaStep.openParen := by
  have h0 : (l.takeWhile (popCond p)).count FormulaStep.openParen = 0 :=
    List.count_eq_zero.mpr (openParen_not_mem_takeWhile p l)
  have happ := List.takeWhile_append_dropWhile (popCond p) l
  calc (l.dropWhile (popCond p)).count FormulaStep.openParen
      = (l.takeWhile (popCond p) ++
          l.dropWhile (popCond p)).count FormulaStep.openParen := by
        rw [List.count_append, h0, Nat.zero_add]
    _ = l.count FormulaStep.openParen := by rw [happ]

theorem paren_applyPush (b : FormulaBuilder) (h : opsOnly b.build_stack = true)
    (hs : FormulaStep.openParen ∉ b.steps) (pu : Push) :
    FormulaStep.openParen ∉ (applyPush b pu).steps ∧
      (applyPush b pu).build_stack.count FormulaStep.openParen =
        parenStep (b.build_stack.count FormulaStep.openParen) pu := by
  cases pu with
  | metric n s z =>
    refine ⟨?_, by simp [applyPush, FormulaBuilder.push_metric, parenStep]⟩
    simp [applyPush, FormulaBuilder.push_metric, hs]
  | average ms =>
    refine ⟨?_, by simp [applyPush, FormulaBuilder.push_average, parenStep]⟩
    simp [applyPush, FormulaBuilder.push_average, hs]
  | oper o =>
    have hgd : applyPush b (Push.oper o) = (b.push_oper o.str).getD b := rfl
    cases o with
    | lparen =>
      rw [hgd, show Oper.lparen.str = "(" from rfl, push_oper_lparen,
        Option.getD_some]
      exact ⟨hs, by simp [parenStep, List.count_cons_self]⟩
    | plus =>
      rw [hgd, show Oper.plus.str = "+" from rfl,
        push_oper_eq b "+" 4 h rfl (by decide), Option.getD_some]
      refine ⟨?_, ?_⟩
      · intro hmem
        rcases List.mem_append.mp hmem with hm | hm
        · exact hs hm
        · exact openParen_not_mem_takeWhile 4 b.build_stack hm
      · rw [if_neg (fun hc => by simp at hc)]
        simp [parenStep, List.count_append, count_drop_eq,
          List.count_cons, pushedOf]
    | minus =>
      rw [hgd, show Oper.minus.str = "-" from rfl,
        push_oper_eq b "-" 3 h rfl (by decide), Option.getD_some]
      refine ⟨?_, ?_⟩
      · intro hmem
        rcases List.mem_append.mp hmem with hm | hm
        · exact hs hm
        · exact openParen_not_mem_takeWhile 3 b.build_stack hm
      · rw [if_neg (fun hc => by simp at hc)]
        simp [parenStep, List.count_append, count_drop_eq,
          List.count_cons, pushedOf]
    | times =>
      rw [hgd, show Oper.times.str = "*" from rfl,
        push_oper_eq b "*" 2 h rfl (by decide), Option.getD_some]
      refine ⟨?_, ?_⟩
      · intro hmem
        rcases List.mem_append.mp hmem with hm | hm
        · exact hs hm
        · exact openParen_not_mem_takeWhile 2 b.build_stack hm
      · rw [if_neg (fun hc => by simp at hc)]
        simp [parenStep, List.count_append, count_drop_eq,
          List.count_cons, pushedOf]
    | divide =>
      rw [hgd, show Oper.divide.str = "/" from rfl,
        push_oper_eq b "/" 1 h rfl (by decide), Option.getD_some]
      refine ⟨?_, ?_⟩
      · intro hmem
        rcases List.mem_append.mp hmem with hm | hm
        · exact hs hm
        · exact openParen_not_mem_takeWhile 1 b.build_stack hm
      · rw [if_neg (fun hc => by simp at hc)]
        simp [parenStep, List.count_append, count_drop_eq,
          List.count_cons, pushedOf]
    | rparen =>
      rw [hgd, show Oper.rparen.str = ")" from rfl,
        push_oper_eq b ")" 5 h rfl (by decide), Option.getD_some]
      by_cases hmem : FormulaStep.openParen ∈ b.build_stack
      · obtain ⟨pre, rest, heq, hout⟩ :=
          exists_first_split FormulaStep.openParen b.build_stack hmem
        have hops := (opsOnly_iff b.build_stack).mp h
        have hpre : ∀ a ∈ pre, popCond 5 a = true := by
          intro a ha
          have hiso : isOperStep a = true := hops a (by simp [heq, ha])
          have hne : a ≠ FormulaStep.openParen := fun e => hout (e ▸ ha)
          simp [popCond, stepPrec_le_five a hiso, hne]
        have hx : popCond 5 FormulaStep.openParen = false := by decide
        have hmid := takeWhile_middle (popCond 5) FormulaStep.openParen rest pre
          hpre hx
        rw [heq, hmid.1, hmid.2]
        refine ⟨?_, ?_⟩
        · intro hm
          rcases List.mem_append.mp hm with hm | hm
          · exact hs hm
          · exact hout hm
        · rw [if_pos ⟨rfl, rfl⟩]
          simp [parenStep, pushedOf, List.count_append, List.count_cons_self,
            List.count_eq_zero.mpr hout]
      · have hall : ∀ a ∈ b.build_stack, popCond 5 a = true := by
          intro a ha
          have hiso : isOperStep a = true := ((opsOnly_iff _).mp h) a ha
          have hne : a ≠ FormulaStep.openParen := fun e => hmem (e ▸ ha)
          simp [popCond, stepPrec_le_five a hiso, hne]
        have hdw : b.build_stack.dropWhile (popCond 5) = [] :=
          List.dropWhile_eq_nil_iff.mpr hall
        have htw : b.build_stack.takeWhile (popCond 5) = b.build_stack := by
          have := List.takeWhile_append_dropWhile (popCond 5) b.build_stack
          rw [hdw, List.append_nil] at this
          exact this
        rw [hdw, htw]
        refine ⟨?_, ?_⟩
        · intro hm
          rcases List.mem_append.mp hm with hm | hm
          · exact hs hm
          · exact hmem hm
        · rw [if_neg (fun hc => by simp at hc)]
          simp [parenStep, pushedOf, List.count_eq_zero.mpr hmem]

theorem paren_foldl (ps : List Push) :
    ∀ b : FormulaBuilder, opsOnly b.build_stack = true →
      FormulaStep.openParen ∉ b.steps →
      FormulaStep.openParen ∉ (ps.foldl applyPush b).steps ∧
        (ps.foldl applyPush b).build_stack.count FormulaStep.openParen =
          ps.foldl parenStep (b.build_stack.count FormulaStep.openParen) := by
  induction ps with
  | nil => exact fun b _ hs => ⟨hs, rfl⟩
  | cons p rest ih =>
    intro b h hs
    have hp := paren_applyPush b h hs p
    have hops := opsOnly_applyPush b h p
    have hrec := ih (applyPush b p) hops hp.1
    simp only [List.foldl_cons]
    exact ⟨hrec.1, by rw [hrec.2, hp.2]⟩

/-! Helper lemmas about the fetcher map and the evaluator. -/

theorem lookupFetcher_append_self (n : String) (f : MetricFetcher) :
    ∀ m : List (String × MetricFetcher), lookupFetcher m n = none →
      lookupFetcher (m ++ [(n, f)]) n = some f := by
  intro m
  induction m with
  | nil => intro _; simp [lookupFetcher]
  | cons e rest ih =>
    obtain ⟨k, v⟩ := e
    intro h
    by_cases hk : k = n
    · simp [lookupFetcher, hk] at h
    · simp only [lookupFetcher, List.cons_append, if_neg hk] at h ⊢
      exact ih h

theorem countP_zero_of_lookup_none (n : String) :
    ∀ m : List (String × MetricFetcher), lookupFetcher m n = none →
      m.countP (fun e => e.1 == n) = 0 := by
  intro m
  induction m with
  | nil => intro _; rfl
  | cons e rest ih =>
    obtain ⟨k, v⟩ := e
    intro h
    by_cases hk : k = n
    · simp [lookupFetcher, hk] at h
    · simp only [lookupFetcher, if_neg hk] at h
      simp [List.countP_cons, hk, ih h]

theorem refetchGo_no_sc (latest : Nat) (c : String) :
    ∀ (stream : List Sample) (ts : Nat) (last : Option Sample),
      (refetchGo latest stream ts last).1 ≠
        Except.error (TickError.streamClosedFor c) := by
  intro stream
  induction stream with
  | nil =>
    intro ts last h
    by_cases hc : ts < latest <;> simp [refetchGo, hc] at h
  | cons s rest ih =>
    intro ts last h
    by_cases hc : ts < latest
    · rw [refetchGo, if_pos hc] at h
      exact ih s.timestamp (some s) h
    · simp [refetchGo, hc] at h

theorem syncItems_no_sc (fname : String) (latest : Nat) (c : String) :
    ∀ (items : List (Nat × String)) (fs : List (String × MetricFetcher)),
      (syncItems fname latest items fs).1 ≠
        Except.error (TickError.streamClosedFor c) := by
  intro items
  induction items with
  | nil => intro fs h; simp [syncItems] at h
  | cons it rest ih =>
    obtain ⟨ts, n⟩ := it
    intro fs h
    rw [syncItems] at h
    by_cases hts : ts = latest
    · rw [if_pos hts] at h
      exact ih fs h
    · rw [if_neg hts] at h
      rcases hlk : lookupFetcher fs n with _ | f
      · rw [hlk] at h
        simp at h
      · rw [hlk] at h
        dsimp only at h
        rcases hrf : refetchFetcher latest f ts with ⟨r1, f2⟩
        rcases r1 with e1 | ts2
        · rw [hrf] at h
          dsimp only at h
          have hr : (refetchGo latest f.data_stream ts f.latest_value).1 =
              Except.error e1 := by
            have h2 := congrArg Prod.fst hrf
            simpa [refetchFetcher] using h2
          injection h with he1
          exact refetchGo_no_sc latest c f.data_stream ts f.latest_value
            (he1 ▸ hr)
        · rw [hrf] at h
          dsimp only at h
          by_cases hlt : latest < ts2
          · rw [if_pos hlt] at h
            simp at h
          · rw [if_neg hlt] at h
            exact ih _ h

theorem buildTsDictGo_ok :
    ∀ (results : List (String × Option Sample)) (acc : List (Nat × String)),
      (∀ r ∈ results, r.2.isSome = true) →
      ∃ d, buildTsDictGo results acc = Except.ok d := by
  intro results
  induction results with
  | nil => exact fun acc _ => ⟨acc, rfl⟩
  | cons r rest ih =>
    intro acc h
    obtain ⟨n, v⟩ := r
    rcases v with _ | s
    · have hv := h (n, none) (by simp)
      simp at hv
    · simpa [buildTsDictGo] using
        ih (dictInsert acc s.timestamp n) (fun x hx => h x (by simp [hx]))

theorem sync_no_sc (E : FormulaEngine) (results : List (String × Option Sample))
    (c : String) (h : ∀ r ∈ results, r.2.isSome = true) :
    (E._synchronize_metric_timestamps results).1 ≠
      Except.error (TickError.streamClosedFor c) := by
  intro hcontra
  unfold FormulaEngine._synchronize_metric_timestamps at hcontra
  obtain ⟨d, hd⟩ := buildTsDictGo_ok results [] h
  rw [show buildTsDict results = Except.ok d from hd] at hcontra
  dsimp only at hcontra
  rcases hm : (d.map Prod.fst).max? with _ | latest
  · rw [hm] at hcontra
    simp at hcontra
  · rw [hm] at hcontra
    dsimp only at hcontra
    rcases hsi : syncItems E.name latest d E.metric_fetchers with ⟨r1, fs2⟩
    rcases r1 with e1 | u
    · rw [hsi] at hcontra
      dsimp only at hcontra
      injection hcontra with he1
      have := syncItems_no_sc E.name latest c d E.metric_fetchers
      rw [hsi, he1] at this
      exact this rfl
    · rw [hsi] at hcontra
      dsimp only at hcontra
      simp at hcontra

theorem sync_error_state (E : FormulaEngine)
    (results : List (String × Option Sample)) (e : TickError)
    (E2 : FormulaEngine)
    (h : E._synchronize_metric_timestamps results = (Except.error e, E2)) :
    E2.first_run = E.first_run := by
  unfold FormulaEngine._synchronize_metric_timestamps at h
  rcases hd : buildTsDict results with e1 | d
  · rw [hd] at h
    dsimp only at h
    injection h with h1 h2
    rw [← h2]
  · rw [hd] at h
    dsimp only at h
    rcases hm : (d.map Prod.fst).max? with _ | latest
    · rw [hm] at h
      dsimp only at h
      injection h with h1 h2
      rw [← h2]
    · rw [hm] at h
      dsimp only at h
      rcases hsi : syncItems E.name latest d E.metric_fetchers with ⟨r1, fs2⟩
      rcases r1 with e1 | u
      · rw [hsi] at h
        dsimp only at h
        injection h with h1 h2
        rw [← h2]
      · rw [hsi] at h
        dsimp only at h
        injection h with h1 h2
        exact absurd h1 (by simp)

theorem sync_ok_state (E : FormulaEngine)
    (results : List (String × Option Sample)) (ts : Nat) (E2 : FormulaEngine)
    (h : E._synchronize_metric_timestamps results = (Except.ok ts, E2)) :
    E2.first_run = false := by
  unfold FormulaEngine._synchronize_metric_timestamps at h
  rcases hd : buildTsDict results with e1 | d
  · rw [hd] at h
    dsimp only at h
    injection h with h1 h2
    exact absurd h1 (by simp)
  · rw [hd] at h
    dsimp only at h
    rcases hm : (d.map Prod.fst).max? with _ | latest
    · rw [hm] at h
      dsimp only at h
      injection h with h1 h2
      exact absurd h1 (by simp)
    · rw [hm] at h
      dsimp only at h
      rcases hsi : syncItems E.name latest d E.metric_fetchers with ⟨r1, fs2⟩
      rcases r1 with e1 | u
      · rw [hsi] at h
        dsimp only at h
        injection h with h1 h2
        exact absurd h1 (by simp)
      · rw [hsi] at h
        dsimp only at h
        injection h with h1 h2
        rw [← h2]

theorem _apply_empty (E : FormulaEngine) (h : E.metric_fetchers = []) :
    E._apply = (Except.error TickError.emptyWait, E) := by
  unfold FormulaEngine._apply
  rw [if_pos (List.isEmpty_iff.mpr h)]

theorem _apply_noResult (E : FormulaEngine) (hne : E.metric_fetchers ≠ [])
    (hnone : (fetchNextAll E.metric_fetchers).1.any (fun r => r.2.isNone) = true) :
    E._apply =
      (Except.error (TickError.noResult E.name),
       { E with metric_fetchers := (fetchNextAll E.metric_fetchers).2 }) := by
  unfold FormulaEngine._apply
  rw [if_neg (by simp [hne])]
  dsimp only
  rw [if_pos hnone]

theorem _apply_first_run (E : FormulaEngine) (hne : E.metric_fetchers ≠ [])
    (hall : (fetchNextAll E.metric_fetchers).1.any (fun r => r.2.isNone) = false)
    (hfr : E.first_run = true) :
    E._apply =
      (match ({ E with metric_fetchers := (fetchNextAll E.metric_fetchers).2 } :
            FormulaEngine)._synchronize_metric_timestamps
            (fetchNextAll E.metric_fetchers).1 with
       | (Except.error e, E2) => (Except.error e, E2)
       | (Except.ok ts, E2) => (evalPhase E2 ts, E2)) := by
  unfold FormulaEngine._apply
  rw [if_neg (by simp [hne])]
  dsimp only
  rw [if_neg (by simp [hall]), if_pos hfr]

theorem _apply_not_first (E : FormulaEngine) (hne : E.metric_fetchers ≠ [])
    (hall : (fetchNextAll E.metric_fetchers).1.any (fun r => r.2.isNone) = false)
    (hfr : E.first_run = false) (n : String) (s : Sample)
    (hhead : (fetchNextAll E.metric_fetchers).1.head? = some (n, some s)) :
    E._apply =
      (evalPhase { E with metric_fetchers := (fetchNextAll E.metric_fetchers).2 }
         s.timestamp,
       { E with metric_fetchers := (fetchNextAll E.metric_fetchers).2 }) := by
  unfold FormulaEngine._apply
  rw [if_neg (by simp [hne])]
  dsimp only
  rw [if_neg (by simp [hall]), if_neg (by simp [hfr]), hhead]

/-! Claim theorems. -/

/-- Claim C1: `push_oper` implements the shunting-yard pop rule with exactly
the precedence table `( = 0, / = 1, * = 2, - = 3, + = 4, ) = 5`: every state
reached by a sequence of pushes has a working stack of operator steps only,
and on every builder state with such a stack, an incoming operator other than `(` pops stack
entries onto the output postfix list only while the top's precedence is at
most the incoming operator's precedence, a top with strictly greater
precedence number is never popped, and an incoming `(` pops nothing. -/
theorem c1_push_oper_precedence (b : FormulaBuilder)
    (hb : opsOnly b.build_stack = true) :
    _operator_precedence =
        [("(", 0), ("/", 1), ("*", 2), ("-", 3), ("+", 4), (")", 5)]
    ∧ (∀ (name : String) (ps : List Push),
        opsOnly (applyPushes name ps).build_stack = true)
    ∧ b.push_oper "(" =
        some { b with build_stack := FormulaStep.openParen :: b.build_stack }
    ∧ ∀ oper, oper ∈ ["+", "-", "*", "/", ")"] →
        ∃ p b2, precLookup oper = some p ∧ b.push_oper oper = some b2 ∧
          ∃ emitted, b2.steps = b.steps ++ emitted ∧
            emitted <+: b.build_stack ∧
            (∀ e ∈ emitted, stepPrec e ≤ p) ∧
            ∀ t rest, b.build_stack = t :: rest → p < stepPrec t →
              emitted = [] ∧ b2.build_stack = pushedOf oper ++ b.build_stack := by
  have gen : ∀ (oper : String) (p : Nat), precLookup oper = some p →
      oper ≠ "(" →
      ∃ b2, b.push_oper oper = some b2 ∧
        ∃ emitted, b2.steps = b.steps ++ emitted ∧
          emitted <+: b.build_stack ∧
          (∀ e ∈ emitted, stepPrec e ≤ p) ∧
          ∀ t rest, b.build_stack = t :: rest → p < stepPrec t →
            emitted = [] ∧ b2.build_stack = pushedOf oper ++ b.build_stack := by
    intro oper p hp hne
    refine ⟨_, push_oper_eq b oper p hb hp hne, ?_⟩
    refine ⟨b.build_stack.takeWhile (popCond p), rfl,
      List.takeWhile_prefix _, ?_, ?_⟩
    · intro e he
      have hc := List.mem_takeWhile_imp he
      simp [popCond] at hc
      exact hc.1
    · intro t rest hstack hgt
      have hnle : ¬ stepPrec t ≤ p := by omega
      have hcond : popCond p t = false := by simp [popCond, hnle]
      have htw : (t :: rest).takeWhile (popCond p) = [] :=
        @List.takeWhile_cons_of_neg _ (popCond p) t rest (by simp [hcond])
      have hdw : (t :: rest).dropWhile (popCond p) = t :: rest :=
        @List.dropWhile_cons_of_neg _ (popCond p) t rest (by simp [hcond])
      have hnp : t ≠ FormulaStep.openParen := by
        intro e
        rw [e, stepPrec_openParen] at hgt
        omega
      constructor
      · rw [hstack, htw]
      · dsimp only
        rw [hstack, hdw]
        simp [hnp]
  refine ⟨rfl, opsOnly_applyPushes, push_oper_lparen b, ?_⟩
  intro oper hop
  simp only [List.mem_cons, List.not_mem_nil, or_false] at hop
  rcases hop with rfl | rfl | rfl | rfl | rfl
  · obtain ⟨b2, h1, h2⟩ := gen "+" 4 rfl (by decide)
    exact ⟨4, b2, rfl, h1, h2⟩
  · obtain ⟨b2, h1, h2⟩ := gen "-" 3 rfl (by decide)
    exact ⟨3, b2, rfl, h1, h2⟩
  · obtain ⟨b2, h1, h2⟩ := gen "*" 2 rfl (by decide)
    exact ⟨2, b2, rfl, h1, h2⟩
  · obtain ⟨b2, h1, h2⟩ := gen "/" 1 rfl (by decide)
    exact ⟨1, b2, rfl, h1, h2⟩
  · obtain ⟨b2, h1, h2⟩ := gen ")" 5 rfl (by decide)
    exact ⟨5, b2, rfl, h1, h2⟩

/-- Witness for C1 at a concrete input: pushing `(` onto a working stack
holding an `Adder` pops nothing and stacks the marker. -/
theorem c1_witness :
    FormulaBuilder.push_oper builderAdder "(" =
      some ⟨"f", [FormulaStep.openParen, FormulaStep.adder], [], []⟩ :=
  (c1_push_oper_precedence builderAdder (by decide)).2.2.1

/-- Claim C2: compiling `#1 + #2 * #3` on a fresh builder — `push_metric` for
`#1`, `push_oper("+")`, `push_metric` for `#2`, `push_oper("*")`,
`push_metric` for `#3`, then `build()` — yields exactly the postfix step
sequence fetch(#1), fetch(#2), fetch(#3), Multiplier, Adder, for any streams
and zero policies. -/
theorem c2_example_postfix (s1 s2 s3 : List Sample) (z1 z2 z3 : Bool) :
    ((applyPushes "f"
        [Push.metric "#1" s1 z1, Push.oper Oper.plus, Push.metric "#2" s2 z2,
         Push.oper Oper.times, Push.metric "#3" s3 z3]).build).steps =
      [FormulaStep.fetcher ⟨"#1", s1, z1, none⟩,
       FormulaStep.fetcher ⟨"#2", s2, z2, none⟩,
       FormulaStep.fetcher ⟨"#3", s3, z3, none⟩,
       FormulaStep.multiplier, FormulaStep.adder] := rfl

/-- Claim C3 (code defect): on the first tick of `engineAB0C1`, fetchers A and
B both return the non-latest timestamp 0 while C returns the latest timestamp
1.  Because `metrics_by_ts` is keyed by timestamp, B's entry overwrites A's
and only B is re-fetched: the tick nevertheless succeeds, publishing a sample
at timestamp 1 carrying A's stale value 10 fetched at timestamp 0, and after
the tick A's stream still holds its timestamp-1 sample while A's latest
fetched sample sits at timestamp 0 — contradicting the claim that every
fetcher whose sample timestamp is not the latest is re-fetched until it
reaches the latest timestamp. -/
theorem c3_sync_skips_duplicate_timestamp :
    (FormulaEngine._apply engineAB0C1).1 = Except.ok ⟨1, some 10⟩
    ∧ lookupFetcher (FormulaEngine._apply engineAB0C1).2.metric_fetchers "A" =
        some ⟨"A", [⟨1, some 20⟩], false, some ⟨0, some 10⟩⟩
    ∧ lookupFetcher (FormulaEngine._apply engineAB0C1).2.metric_fetchers "B" =
        some ⟨"B", [], false, some ⟨1, some 6⟩⟩ :=
  ⟨rfl, rfl, rfl⟩

theorem evalPhase_ok_timestamp (E : FormulaEngine) (ts : Nat) (r : Sample)
    (h : evalPhase E ts = Except.ok r) : r.timestamp = ts := by
  unfold evalPhase at h
  rcases hr : runSteps (envOf E.metric_fetchers) E.steps [] with _ | st
  · rw [hr] at h
    simp at h
  · rw [hr] at h
    rcases st with _ | ⟨v, _ | ⟨w, t⟩⟩
    · simp at h
    · injection h with h1
      rw [← h1]
    · simp at h

theorem fetchNextAll_cons_nil (n : String) (f : MetricFetcher)
    (rest : List (String × MetricFetcher)) (h : f.data_stream = []) :
    (fetchNextAll ((n, f) :: rest)).1 = (n, none) :: (fetchNextAll rest).1 := by
  simp [fetchNextAll, h]

theorem fetchNextAll_cons_cons (n : String) (f : MetricFetcher)
    (rest : List (String × MetricFetcher)) (s : Sample) (tl : List Sample)
    (h : f.data_stream = s :: tl) :
    (fetchNextAll ((n, f) :: rest)).1 =
      (n, some s) :: (fetchNextAll rest).1 := by
  simp [fetchNextAll, h]

/-- Claim C4: given that the fetch and synchronization phases of a tick
succeeded with timestamp `ts`, and that executing every postfix step left to
right against a fresh empty stack completes with final stack `st`, the
evaluation succeeds exactly when one value remains — and then the tick's
result is the `Sample` of the synchronized timestamp and that value — while
any other stack size fails the tick with the formula-application-failed error,
a raised error value rather than a crash; and a tick whose `_apply` fails
publishes nothing, the loop simply continuing. -/
theorem c4_apply_success_iff (E : FormulaEngine) (ts : Nat)
    (st : List (Option ℚ))
    (hrun : runSteps (envOf E.metric_fetchers) E.steps [] = some st) :
    ((∃ v, st = [v] ∧ evalPhase E ts = Except.ok ⟨ts, v⟩) ↔ st.length = 1)
    ∧ (st.length ≠ 1 →
        evalPhase E ts = Except.error (TickError.applyFailed E.name))
    ∧ ∀ (e : TickError) (E2 : FormulaEngine) (evs : List LoopEvent),
        FormulaEngine._apply E = (Except.error e, E2) →
        FormulaEngine._run (LoopEvent.tick :: evs) E =
          FormulaEngine._run evs E2 := by
  refine ⟨⟨?_, ?_⟩, ?_, ?_⟩
  · rintro ⟨v, hv, _⟩
    rw [hv]
    rfl
  · intro hlen
    rcases st with _ | ⟨v, _ | ⟨w, t⟩⟩
    · simp at hlen
    · exact ⟨v, rfl, by unfold evalPhase; rw [hrun]⟩
    · simp at hlen
  · intro hlen
    rcases st with _ | ⟨v, _ | ⟨w, t⟩⟩
    · unfold evalPhase
      rw [hrun]
    · exact absurd rfl hlen
    · unfold evalPhase
      rw [hrun]
  · intro e E2 evs h
    rw [FormulaEngine._run, h]

/-- Witness for C4: the synchronized single-fetcher engine `engineOne3`
completes its one-step program with the single stack value 3 and the tick
succeeds with that sample. -/
theorem c4_witness :
    ∃ v, [some (3 : ℚ)] = [v] ∧
      evalPhase engineOne3 0 = Except.ok ⟨0, v⟩ :=
  (c4_apply_success_iff engineOne3 0 [some 3] rfl).1.mpr rfl

/-- Claim C5: the run loop contains every per-tick failure — a tick whose
`_apply` raises a non-cancellation error publishes nothing and the loop
continues with the next tick; cancellation stops the loop cleanly with
nothing further published; a successful tick publishes exactly its sample;
and every value on the output stream is the successful result of some tick,
so subscribers only ever receive valid samples, never an error value. -/
theorem c5_run_loop_contains_failures :
    (∀ (E E2 : FormulaEngine) (e : TickError) (evs : List LoopEvent),
        FormulaEngine._apply E = (Except.error e, E2) →
        FormulaEngine._run (LoopEvent.tick :: evs) E =
          FormulaEngine._run evs E2)
    ∧ (∀ (E : FormulaEngine) (evs : List LoopEvent),
        FormulaEngine._run (LoopEvent.cancel :: evs) E = [])
    ∧ (∀ (E E2 : FormulaEngine) (s : Sample) (evs : List LoopEvent),
        FormulaEngine._apply E = (Except.ok s, E2) →
        FormulaEngine._run (LoopEvent.tick :: evs) E =
          s :: FormulaEngine._run evs E2)
    ∧ ∀ (evs : List LoopEvent) (E : FormulaEngine) (s : Sample),
        s ∈ FormulaEngine._run evs E →
        ∃ E1 E2, FormulaEngine._apply E1 = (Except.ok s, E2) := by
  refine ⟨?_, ?_, ?_, ?_⟩
  · intro E E2 e evs h
    rw [FormulaEngine._run, h]
  · intro E evs
    rfl
  · intro E E2 s evs h
    rw [FormulaEngine._run, h]
  · intro evs
    induction evs with
    | nil =>
      intro E s h
      simp [FormulaEngine._run] at h
    | cons ev rest ih =>
      intro E s h
      cases ev with
      | cancel => simp [FormulaEngine._run] at h
      | tick =>
        rw [FormulaEngine._run] at h
        rcases ha : FormulaEngine._apply E with ⟨r, E2⟩
        rw [ha] at h
        rcases r with e | s2
        · dsimp only at h
          exact ih E2 s h
        · dsimp only at h
          rcases List.mem_cons.mp h with rfl | h2
          · exact ⟨E, E2, ha⟩
          · exact ih E2 s h2

/-- Witness for C5: the tick of the fetcher-less engine fails (the empty
`asyncio.wait` raises) and the loop continues with the rest of the schedule,
publishing nothing for that tick. -/
theorem c5_witness :
    FormulaEngine._run [LoopEvent.tick] engineNoFetchers =
      FormulaEngine._run [] engineNoFetchers :=
  c5_run_loop_contains_failures.1 engineNoFetchers engineNoFetchers
    TickError.emptyWait [] rfl

/-- Claim C6: the `first_run` flag is true at construction by `build`; every
synchronization failure returns with the flag unchanged (so a failed first
tick retries alignment on the next tick, the stream-closed fetch failure
likewise leaving the state with only the streams consumed); the flag becomes
false exactly on a successful synchronization and stays false on every later
tick; and on a tick with `first_run = false` the multi-way reconciliation is
skipped: the published sample carries the first ready fetcher's timestamp and
the fetcher map is exactly the one-fetch-per-fetcher state, nothing being
re-fetched. -/
theorem c6_first_run_flag :
    (∀ b : FormulaBuilder, b.build.first_run = true)
    ∧ (∀ (E : FormulaEngine) (results : List (String × Option Sample))
          (e : TickError) (E2 : FormulaEngine),
        E._synchronize_metric_timestamps results = (Except.error e, E2) →
        E2.first_run = E.first_run)
    ∧ (∀ E : FormulaEngine, E.metric_fetchers ≠ [] →
        (fetchNextAll E.metric_fetchers).1.any (fun r => r.2.isNone) = true →
        E._apply =
          (Except.error (TickError.noResult E.name),
           { E with metric_fetchers := (fetchNextAll E.metric_fetchers).2 }))
    ∧ (∀ (E : FormulaEngine) (results : List (String × Option Sample))
          (ts : Nat) (E2 : FormulaEngine),
        E._synchronize_metric_timestamps results = (Except.ok ts, E2) →
        E2.first_run = false)
    ∧ (∀ E : FormulaEngine, E.first_run = false →
        (FormulaEngine._apply E).2.first_run = false)
    ∧ ∀ (E : FormulaEngine) (n : String) (s : Sample),
        E.first_run = false →
        (fetchNextAll E.metric_fetchers).1.head? = some (n, some s) →
        ∀ (r : Sample) (E2 : FormulaEngine),
          FormulaEngine._apply E = (Except.ok r, E2) →
          r.timestamp = s.timestamp ∧
            E2.metric_fetchers = (fetchNextAll E.metric_fetchers).2 := by
  refine ⟨fun b => rfl, sync_error_state, _apply_noResult, sync_ok_state,
    ?_, ?_⟩
  · intro E hfr
    by_cases hemp : E.metric_fetchers = []
    · rw [_apply_empty E hemp]
      exact hfr
    · by_cases hnone :
          (fetchNextAll E.metric_fetchers).1.any (fun r => r.2.isNone) = true
      · rw [_apply_noResult E hemp hnone]
        exact hfr
      · have hall :
            (fetchNextAll E.metric_fetchers).1.any (fun r => r.2.isNone) =
              false := by
          cases h2 : (fetchNextAll E.metric_fetchers).1.any (fun r => r.2.isNone)
          · rfl
          · exact absurd h2 hnone
        rcases hfs : E.metric_fetchers with _ | ⟨⟨n0, f0⟩, rest⟩
        · exact absurd hfs hemp
        · rcases hds : f0.data_stream with _ | ⟨s0, tl⟩
          · exfalso
            have h1 := fetchNextAll_cons_nil n0 f0 rest hds
            rw [hfs, h1] at hall
            simp at hall
          · have h1 := fetchNextAll_cons_cons n0 f0 rest s0 tl hds
            have hhead :
                (fetchNextAll E.metric_fetchers).1.head? =
                  some (n0, some s0) := by
              rw [hfs, h1]
              rfl
            rw [_apply_not_first E hemp hall hfr n0 s0 hhead]
            exact hfr
  · intro E n s hfr hhead r E2 happ
    have hemp : E.metric_fetchers ≠ [] := by
      intro h0
      rw [h0] at hhead
      simp [fetchNextAll] at hhead
    by_cases hnone :
        (fetchNextAll E.metric_fetchers).1.any (fun r => r.2.isNone) = true
    · rw [_apply_noResult E hemp hnone] at happ
      injection happ with h1 h2
      exact absurd h1 (by simp)
    · have hall :
          (fetchNextAll E.metric_fetchers).1.any (fun r => r.2.isNone) =
            false := by
        cases h2 : (fetchNextAll E.metric_fetchers).1.any (fun r => r.2.isNone)
        · rfl
        · exact absurd h2 hnone
      rw [_apply_not_first E hemp hall hfr n s hhead] at happ
      injection happ with h1 h2
      refine ⟨evalPhase_ok_timestamp _ _ _ h1, ?_⟩
      rw [← h2]

/-- Witness for C6 at a concrete input: a tick of the already-synchronized
engine `engineOne3` leaves `first_run` false. -/
theorem c6_witness :
    (FormulaEngine._apply engineOne3).2.first_run = false :=
  c6_first_run_flag.2.2.2.2.1 engineOne3 rfl

theorem evalPhase_no_sc (E : FormulaEngine) (ts : Nat) (c : String) :
    evalPhase E ts ≠ Except.error (TickError.streamClosedFor c) := by
  intro h
  unfold evalPhase at h
  rcases hr : runSteps (envOf E.metric_fetchers) E.steps [] with _ | st
  · rw [hr] at h
    simp at h
  · rw [hr] at h
    rcases st with _ | ⟨v, _ | ⟨w, t⟩⟩ <;> simp at h

theorem isSome_of_no_isNone (l : List (String × Option Sample))
    (h : l.any (fun r => r.2.isNone) = false) :
    ∀ r ∈ l, r.2.isSome = true := by
  intro r hr
  have h2 := List.any_eq_false.mp h r hr
  rcases hr2 : r.2 with _ | s
  · rw [hr2] at h2
    simp at h2
  · rfl

/-- Counterexample to C7: on the engine `engineClosedM1` (formula name `g`),
metric `m1`'s stream is closed when the tick concurrently requests the next
samples; the tick does fail, but the raised condition is the
`Some resampled metrics didn't arrive` error interpolating only the formula
name `g` — it does not name the closed metric `m1`. -/
theorem c7_counterexample :
    (FormulaEngine._apply engineClosedM1).1 =
        Except.error (TickError.noResult "g")
    ∧ "m1" ∉ (TickError.noResult "g").names :=
  ⟨rfl, by decide⟩

/-- Claim C7 as amended: on every tick (first or subsequent) in which some
fetcher's stream is closed at the concurrent fetch, the tick fails — but with
the `didn't arrive` condition whose message names the formula, not the closed
metric; the metric-naming `Stream closed for component` condition of the
synchronization helper is unreachable from `_apply`, which has already
checked every result before synchronizing. -/
theorem c7_stream_closed_amended :
    (∀ E : FormulaEngine, E.metric_fetchers ≠ [] →
        (fetchNextAll E.metric_fetchers).1.any (fun r => r.2.isNone) = true →
        E._apply =
            (Except.error (TickError.noResult E.name),
             { E with metric_fetchers := (fetchNextAll E.metric_fetchers).2 })
          ∧ (TickError.noResult E.name).names = [E.name])
    ∧ ∀ (E : FormulaEngine) (c : String),
        (FormulaEngine._apply E).1 ≠
          Except.error (TickError.streamClosedFor c) := by
  constructor
  · intro E hne hnone
    exact ⟨_apply_noResult E hne hnone, rfl⟩
  · intro E c hcontra
    by_cases hemp : E.metric_fetchers = []
    · rw [_apply_empty E hemp] at hcontra
      simp at hcontra
    · by_cases hnone :
          (fetchNextAll E.metric_fetchers).1.any (fun r => r.2.isNone) = true
      · rw [_apply_noResult E hemp hnone] at hcontra
        simp at hcontra
      · have hall :
            (fetchNextAll E.metric_fetchers).1.any (fun r => r.2.isNone) =
              false := by
          cases h2 :
            (fetchNextAll E.metric_fetchers).1.any (fun r => r.2.isNone)
          · rfl
          · exact absurd h2 hnone
        by_cases hfr : E.first_run = true
        · rw [_apply_first_run E hemp hall hfr] at hcontra
          rcases hs :
              ({ E with metric_fetchers := (fetchNextAll E.metric_fetchers).2 } :
                  FormulaEngine)._synchronize_metric_timestamps
                (fetchNextAll E.metric_fetchers).1 with ⟨rs, E2⟩
          rw [hs] at hcontra
          rcases rs with e1 | ts
          · dsimp only at hcontra
            injection hcontra with he
            have hsome := isSome_of_no_isNone _ hall
            have hne2 := sync_no_sc
              { E with metric_fetchers := (fetchNextAll E.metric_fetchers).2 }
              (fetchNextAll E.metric_fetchers).1 c hsome
            rw [hs, he] at hne2
            exact hne2 rfl
          · dsimp only at hcontra
            exact evalPhase_no_sc E2 ts c hcontra
        · have hfr2 : E.first_run = false := by
            cases h2 : E.first_run
            · rfl
            · exact absurd h2 hfr
          rcases hfs : E.metric_fetchers with _ | ⟨⟨n0, f0⟩, rest⟩
          · exact absurd hfs hemp
          · rcases hds : f0.data_stream with _ | ⟨s0, tl⟩
            · exfalso
              have h1 := fetchNextAll_cons_nil n0 f0 rest hds
              rw [hfs, h1] at hall
              simp at hall
            · have h1 := fetchNextAll_cons_cons n0 f0 rest s0 tl hds
              have hhead :
                  (fetchNextAll E.metric_fetchers).1.head? =
                    some (n0, some s0) := by
                rw [hfs, h1]
                rfl
              rw [_apply_not_first E hemp hall hfr2 n0 s0 hhead] at hcontra
              dsimp only at hcontra
              exact evalPhase_no_sc _ s0.timestamp c hcontra

/-- Witness for C7 (amended) at a concrete input: the closed stream of `m1`
fails the tick of `engineClosedM1` with the formula-naming condition, the
other fetcher's stream having been consumed by one sample. -/
theorem c7_witness :
    FormulaEngine._apply engineClosedM1 =
      (Except.error (TickError.noResult "g"),
       ⟨"g", [FormulaStep.fetcher ⟨"m1", [], false, none⟩],
        [("m1", ⟨"m1", [], false, none⟩),
         ("m2", ⟨"m2", [], false, some ⟨0, some 1⟩⟩)], true⟩) :=
  (c7_stream_closed_amended.1 engineClosedM1 (by decide) rfl).1

/-- Counterexample to C8: the push sequence of the malformed formula `#1 )`
(an unmatched closing parenthesis) compiles to exactly the same builder state
as the well-formed formula `#1` — the stray `)` is silently dropped — and the
first tick of the built engine succeeds with a normal sample, so this
malformed input never surfaces as a runtime evaluation failure. -/
theorem c8_counterexample :
    applyPushes "f"
        [Push.metric "#1" [⟨5, some 7⟩] false, Push.oper Oper.rparen] =
      applyPushes "f" [Push.metric "#1" [⟨5, some 7⟩] false]
    ∧ (FormulaEngine._apply
        ((applyPushes "f"
          [Push.metric "#1" [⟨5, some 7⟩] false,
           Push.oper Oper.rparen]).build)).1 = Except.ok ⟨5, some 7⟩ :=
  ⟨rfl, rfl⟩

/-- Claim C8 as amended: malformed input is never rejected at compile time —
on every builder state reached by a push sequence, `push_oper` of any
documented operator token succeeds (and `push_metric`, `push_average` and
`build` are total functions) — but only some malformed inputs surface as
runtime evaluation failures: a missing operand such as `#1 +` fails its tick
(the `Adder` pops an underfilled stack and the raised exception fails the
tick), while an unmatched `)` compiles to a program that evaluates
normally. -/
theorem c8_compile_total_amended :
    (∀ (name : String) (ps : List Push) (o : Oper),
        ((applyPushes name ps).push_oper o.str).isSome = true)
    ∧ (FormulaEngine._apply
        ((applyPushes "f"
          [Push.metric "#1" [⟨5, some 7⟩] false,
           Push.oper Oper.plus]).build)).1 =
      Except.error TickError.stepCrash := by
  refine ⟨?_, rfl⟩
  intro name ps o
  exact push_oper_isSome _ (opsOnly_applyPushes name ps) o

/-- Counterexample to C9: after the single push `push_oper("(")`, `build()`
flushes the leftover marker into the program — the built step list is exactly
`[OpenParen]`, so for this input the postfix list does contain an `OpenParen`
step. -/
theorem c9_counterexample :
    ((applyPushes "f" [Push.oper Oper.lparen]).build).steps =
      [FormulaStep.openParen] := rfl

/-- Claim C9 as amended: processing `push_oper(")")` pops and emits steps
until the working-stack top is `(`, which is then discarded without being
emitted; and for every push sequence whose `(` pushes are all matched (its
running parenthesis balance ends at zero), the postfix list returned by
`build()` contains no `OpenParen` step — for unbalanced input, `build()`
flushes the leftover `(` markers into the program. -/
theorem c9_open_paren_amended :
    (∀ (b : FormulaBuilder) (pre rest : List FormulaStep),
        opsOnly b.build_stack = true →
        b.build_stack = pre ++ FormulaStep.openParen :: rest →
        FormulaStep.openParen ∉ pre →
        b.push_oper ")" =
          some { b with build_stack := rest, steps := b.steps ++ pre })
    ∧ ∀ (name : String) (ps : List Push), parenBal ps = 0 →
        FormulaStep.openParen ∉ ((applyPushes name ps).build).steps := by
  constructor
  · intro b pre rest hops hstack hpre
    have hops2 := (opsOnly_iff b.build_stack).mp hops
    have hpr : ∀ a ∈ pre, popCond 5 a = true := by
      intro a ha
      have hiso : isOperStep a = true := hops2 a (by simp [hstack, ha])
      have hne : a ≠ FormulaStep.openParen := fun e => hpre (e ▸ ha)
      simp [popCond, stepPrec_le_five a hiso, hne]
    have hmid := takeWhile_middle (popCond 5) FormulaStep.openParen rest pre
      hpr (by decide)
    rw [push_oper_eq b ")" 5 hops rfl (by decide), hstack, hmid.1, hmid.2]
    rw [if_pos ⟨rfl, rfl⟩]
    rfl
  · intro name ps hbal hmem
    have hinv := paren_foldl ps (mkBuilder name) rfl (by simp [mkBuilder])
    rcases List.mem_append.mp hmem with hm | hm
    · exact hinv.1 hm
    · have hc : (applyPushes name ps).build_stack.count FormulaStep.openParen
          = 0 := hinv.2.trans hbal
      exact (List.count_eq_zero.mp hc) hm

/-- Witness for C9 (amended) at a concrete input: the balanced sequence
`( #1 )` builds a program with no `OpenParen` step. -/
theorem c9_witness :
    FormulaStep.openParen ∉
      ((applyPushes "f"
        [Push.oper Oper.lparen, Push.metric "#1" [] false,
         Push.oper Oper.rparen]).build).steps :=
  c9_open_paren_amended.2 "f"
    [Push.oper Oper.lparen, Push.metric "#1" [] false, Push.oper Oper.rparen]
    (by decide)

/-- Claim C10: fetchers are deduplicated by metric name — starting from any
builder that does not yet register `name`, a first push creates its fetcher
and a second push of the same name (via `push_metric` or `push_average`, in
either order) keeps exactly the first fetcher even when the later push
carries a different stream or zero policy; the map holds exactly one entry
for the name and both emitted steps share that one fetcher. -/
theorem c10_fetcher_dedup (b : FormulaBuilder) (name : String)
    (s1 s2 : List Sample) (p1 p2 : Bool)
    (h : lookupFetcher b.metric_fetchers name = none) :
    lookupFetcher
        ((b.push_metric name s1 p1).push_metric name s2 p2).metric_fetchers
        name = some ⟨name, s1, p1, none⟩
    ∧ ((b.push_metric name s1 p1).push_metric name s2 p2).metric_fetchers.countP
        (fun e => e.1 == name) = 1
    ∧ ((b.push_metric name s1 p1).push_metric name s2 p2).steps =
        b.steps ++ [FormulaStep.fetcher ⟨name, s1, p1, none⟩,
          FormulaStep.fetcher ⟨name, s1, p1, none⟩]
    ∧ lookupFetcher
        ((b.push_metric name s1 p1).push_average
          [(name, s2, p2)]).metric_fetchers name = some ⟨name, s1, p1, none⟩
    ∧ ((b.push_metric name s1 p1).push_average [(name, s2, p2)]).steps =
        b.steps ++ [FormulaStep.fetcher ⟨name, s1, p1, none⟩,
          FormulaStep.averager [⟨name, s1, p1, none⟩]]
    ∧ lookupFetcher
        ((b.push_average [(name, s1, p1)]).push_metric name s2 p2).metric_fetchers
        name = some ⟨name, s1, p1, none⟩
    ∧ ((b.push_average [(name, s1, p1)]).push_metric name s2 p2).steps =
        b.steps ++ [FormulaStep.averager [⟨name, s1, p1, none⟩],
          FormulaStep.fetcher ⟨name, s1, p1, none⟩] := by
  have hl := lookupFetcher_append_self name ⟨name, s1, p1, none⟩
    b.metric_fetchers h
  have hc0 := countP_zero_of_lookup_none name b.metric_fetchers h
  refine ⟨?_, ?_, ?_, ?_, ?_, ?_, ?_⟩ <;>
    simp [FormulaBuilder.push_metric, FormulaBuilder.push_average, setdefault,
      h, hl, List.countP_append, List.countP_cons, hc0]

/-- Witness for C10 at a concrete input: pushing metric `m` twice with
different streams and policies keeps the first fetcher. -/
theorem c10_witness :
    lookupFetcher
      (((mkBuilder "f").push_metric "m" [] true).push_metric "m"
        [⟨1, some 2⟩] false).metric_fetchers "m" =
      some ⟨"m", [], true, none⟩ :=
  (c10_fetcher_dedup (mkBuilder "f") "m" [] [⟨1, some 2⟩] true false rfl).1
